import Mathlib

/-
Shallow embedding of the evaluation core of `eval.py` (class LicensePlateEvaluator):
IoU geometry kernel, greedy matchers (detection and classification mode), the
conditioned pair collector, the per-image cascade evaluator step, and the
confusion-matrix aggregation.  Boxes carry rational coordinates, counters are
integers (Python ints), and the set of claimed ground-truth indices is a
`Finset (Option ℕ)` because the Python code can insert `None` into the set
`matched_indices` when the threshold is not positive.
-/

namespace LicensePlateEval

/-- An axis-aligned box `(x1, y1, x2, y2)`. -/
structure Box where
  x1 : ℚ
  y1 : ℚ
  x2 : ℚ
  y2 : ℚ
  deriving DecidableEq

/-- Intersection area `max(inter_x2 - inter_x1, 0) * max(inter_y2 - inter_y1, 0)` from `bbox_iou`. -/
def inter_area (box1 box2 : Box) : ℚ :=
  max (min box1.x2 box2.x2 - max box1.x1 box2.x1) 0 *
    max (min box1.y2 box2.y2 - max box1.y1 box2.y1) 0

/-- Signed box area `(box[2] - box[0]) * (box[3] - box[1])`. -/
def box_area (b : Box) : ℚ := (b.x2 - b.x1) * (b.y2 - b.y1)

/-- Union area `union = box1_area + box2_area - inter_area`. -/
def union_area (box1 box2 : Box) : ℚ :=
  box_area box1 + box_area box2 - inter_area box1 box2

/-- IoU kernel `bbox_iou`: `inter_area / union if union != 0 else 0`. -/
def bbox_iou (box1 box2 : Box) : ℚ :=
  if union_area box1 box2 ≠ 0 then inter_area box1 box2 / union_area box1 box2 else 0

/-- The inner loop of the matchers: running `(best_iou, best_match_idx)`,
starting from `(0, None)`, updated only on strict improvement (`iou > best_iou`).
`idx` is the index of the head of the remaining list. -/
def bestMatchAux (pred_box : Box) : List Box → ℕ → ℚ × Option ℕ → ℚ × Option ℕ
  | [], _, acc => acc
  | gt_box :: rest, idx, acc =>
    bestMatchAux pred_box rest (idx + 1)
      (if acc.1 < bbox_iou pred_box gt_box then (bbox_iou pred_box gt_box, some idx) else acc)

/-- Running best pair `(best_iou, best_match_idx)` over the whole ground-truth list. -/
def bestMatch (pred_box : Box) (gt_boxes : List Box) : ℚ × Option ℕ :=
  bestMatchAux pred_box gt_boxes 0 (0, none)

/-- Running state of a matcher: `tp`, `fp`, and the set `matched_indices`
(which in Python may contain `None`, modelled by `Option ℕ`). -/
structure MatchState where
  tp : ℤ
  fp : ℤ
  matched : Finset (Option ℕ)
  deriving DecidableEq

/-- Result triple `{'tp': tp, 'fp': fp, 'fn': fn}`. -/
structure MatchResult where
  tp : ℤ
  fp : ℤ
  fn : ℤ
  deriving DecidableEq

/-- One iteration of the prediction loop of `match_boxes`. -/
def matchBoxesStep (τ : ℚ) (gt_boxes : List Box) (s : MatchState) (pred_box : Box) :
    MatchState :=
  if τ ≤ (bestMatch pred_box gt_boxes).1 then
    if (bestMatch pred_box gt_boxes).2 ∈ s.matched then ⟨s.tp, s.fp + 1, s.matched⟩
    else ⟨s.tp + 1, s.fp, insert (bestMatch pred_box gt_boxes).2 s.matched⟩
  else ⟨s.tp, s.fp + 1, s.matched⟩

/-- The full prediction loop of `match_boxes`, from initial state `(0, 0, ∅)`. -/
def matchBoxesRun (τ : ℚ) (gt_boxes pred_boxes : List Box) : MatchState :=
  pred_boxes.foldl (matchBoxesStep τ gt_boxes) ⟨0, 0, ∅⟩

/-- Detection-mode greedy matcher `match_boxes`;
`fn = len(gt_boxes) - len(matched_indices)`. -/
def match_boxes (τ : ℚ) (gt_boxes pred_boxes : List Box) : MatchResult :=
  ⟨(matchBoxesRun τ gt_boxes pred_boxes).tp, (matchBoxesRun τ gt_boxes pred_boxes).fp,
    (gt_boxes.length : ℤ) - (matchBoxesRun τ gt_boxes pred_boxes).matched.card⟩

/-- Best match over `enumerate(zip(gt_boxes, gt_labels))`, using the box component. -/
def bestMatchPairs (pred_box : Box) (gts : List (Box × ℤ)) : ℚ × Option ℕ :=
  bestMatch pred_box (gts.map Prod.fst)

/-- The prediction loop of `match_classification`.  A `none` result models the
Python `TypeError` raised by `gt_labels[best_match_idx]` when `best_match_idx`
is `None` (reachable only when the threshold is not positive), or an
out-of-range index. -/
def matchClassGo (τ : ℚ) (gts : List (Box × ℤ)) (gt_labels : List ℤ) :
    List (Box × ℤ) → MatchState → Option MatchState
  | [], s => some s
  | p :: rest, s =>
    if τ ≤ (bestMatchPairs p.1 gts).1 ∧ (bestMatchPairs p.1 gts).2 ∉ s.matched then
      match (bestMatchPairs p.1 gts).2 with
      | none => none
      | some idx =>
        match gt_labels.get? idx with
        | none => none
        | some gl =>
          matchClassGo τ gts gt_labels rest
            (if p.2 = gl then ⟨s.tp + 1, s.fp, insert (some idx) s.matched⟩
             else ⟨s.tp, s.fp + 1, insert (some idx) s.matched⟩)
    else matchClassGo τ gts gt_labels rest ⟨s.tp, s.fp + 1, s.matched⟩

/-- Classification-mode greedy matcher `match_classification`;
`fn = len(gt_labels) - tp`. -/
def match_classification (τ : ℚ) (gt_boxes : List Box) (gt_labels : List ℤ)
    (pred_boxes : List Box) (pred_labels : List ℤ) : Option MatchResult :=
  (matchClassGo τ (gt_boxes.zip gt_labels) gt_labels (pred_boxes.zip pred_labels)
      ⟨0, 0, ∅⟩).map
    fun s => ⟨s.tp, s.fp, (gt_labels.length : ℤ) - s.tp⟩

/-- The loop of `match_classification_detected_only`: appends
`(gt_labels[best_match_idx], pred_label)` to the confusion buffer on every
successful unclaimed match. -/
def collectGo (τ : ℚ) (gts : List (Box × ℤ)) (gt_labels : List ℤ) :
    List (Box × ℤ) → Finset (Option ℕ) → List (ℤ × ℤ) → Option (List (ℤ × ℤ))
  | [], _, acc => some acc
  | p :: rest, matched, acc =>
    if τ ≤ (bestMatchPairs p.1 gts).1 ∧ (bestMatchPairs p.1 gts).2 ∉ matched then
      match (bestMatchPairs p.1 gts).2 with
      | none => none
      | some idx =>
        match gt_labels.get? idx with
        | none => none
        | some gl =>
          collectGo τ gts gt_labels rest (insert (some idx) matched) (acc ++ [(gl, p.2)])
    else collectGo τ gts gt_labels rest matched acc

/-- Collector `match_classification_detected_only`, acting on the confusion buffer
(`self.y_true` / `self.y_pred`, modelled as one list of pairs). -/
def match_classification_detected_only (τ : ℚ) (gt_boxes : List Box) (gt_labels : List ℤ)
    (pred_boxes : List Box) (pred_labels : List ℤ) (buffer : List (ℤ × ℤ)) :
    Option (List (ℤ × ℤ)) :=
  collectGo τ (gt_boxes.zip gt_labels) gt_labels (pred_boxes.zip pred_labels) ∅ buffer

/-- One ground-truth image entry from the data loader:
parallel box and label lists plus the image identifier. -/
structure Image where
  boxes : List Box
  labels : List ℤ
  filename : ℕ
  deriving DecidableEq

/-- The per-image split: label `0` is a plate box, any other label is a character
box with character label `l - 1`. Returns `(plate_boxes, char_boxes, char_labels)`. -/
def splitEntities (boxes : List Box) (labels : List ℤ) : List Box × List Box × List ℤ :=
  (boxes.zip labels).foldl
    (fun acc bl =>
      if bl.2 = 0 then (acc.1 ++ [bl.1], acc.2.1, acc.2.2)
      else (acc.1, acc.2.1 ++ [bl.1], acc.2.2 ++ [bl.2 - 1]))
    ([], [], [])

/-- The mutable counters and confusion buffer of `evaluate_predictions`. -/
structure EvalState where
  tp_plate : ℤ
  fp_plate : ℤ
  fn_plate : ℤ
  tp_seg : ℤ
  fp_seg : ℤ
  fn_seg : ℤ
  tp_class : ℤ
  fp_class : ℤ
  fn_class : ℤ
  tp_seg_only : ℤ
  fp_seg_only : ℤ
  fn_seg_only : ℤ
  buffer : List (ℤ × ℤ)
  deriving DecidableEq

/-- The body of the per-image loop of `evaluate_predictions`: split the entities,
run the plate and character matchers, accumulate the unconditional counters, and,
when the plate matcher returned `tp == 1`, also accumulate the segmentation-only
counters and append the conditioned classification pairs. `pt`, `cbt`, `clt` are
the external per-filename prediction lookups (plate boxes, character boxes,
character predicted classes). -/
def processImage (τ : ℚ) (pt cbt : ℕ → List Box) (clt : ℕ → List ℤ)
    (s : EvalState) (img : Image) : Option EvalState :=
  match match_classification τ (splitEntities img.boxes img.labels).2.1
      (splitEntities img.boxes img.labels).2.2 (cbt img.filename) (clt img.filename) with
  | none => none
  | some matched_class =>
    let matched_plate := match_boxes τ (splitEntities img.boxes img.labels).1 (pt img.filename)
    let matched_char := match_boxes τ (splitEntities img.boxes img.labels).2.1 (cbt img.filename)
    let s1 : EvalState :=
      { tp_plate := s.tp_plate + matched_plate.tp
        fp_plate := s.fp_plate + matched_plate.fp
        fn_plate := s.fn_plate + matched_plate.fn
        tp_seg := s.tp_seg + matched_char.tp
        fp_seg := s.fp_seg + matched_char.fp
        fn_seg := s.fn_seg + matched_char.fn
        tp_class := s.tp_class + matched_class.tp
        fp_class := s.fp_class + matched_class.fp
        fn_class := s.fn_class + matched_class.fn
        tp_seg_only := s.tp_seg_only
        fp_seg_only := s.fp_seg_only
        fn_seg_only := s.fn_seg_only
        buffer := s.buffer }
    if matched_plate.tp = 1 then
      match match_classification_detected_only τ (splitEntities img.boxes img.labels).2.1
          (splitEntities img.boxes img.labels).2.2 (cbt img.filename) (clt img.filename)
          s1.buffer with
      | none => none
      | some buf =>
        some { s1 with
          tp_seg_only := s1.tp_seg_only + matched_char.tp
          fp_seg_only := s1.fp_seg_only + matched_char.fp
          fn_seg_only := s1.fn_seg_only + matched_char.fn
          buffer := buf }
    else some s1

/-- The whole-dataset loop of `evaluate_predictions` (batches flattened). -/
def evaluateImages (τ : ℚ) (pt cbt : ℕ → List Box) (clt : ℕ → List ℤ)
    (imgs : List Image) (s : EvalState) : Option EvalState :=
  imgs.foldlM (fun st img => processImage τ pt cbt clt st img) s

/-- The label set of the confusion buffer (sklearn builds the confusion matrix
over the sorted distinct labels occurring in `y_true` or `y_pred`; sums over the
class set do not depend on the ordering). -/
def classesOf (pairs : List (ℤ × ℤ)) : Finset ℤ :=
  (pairs.map Prod.fst ++ pairs.map Prod.snd).toFinset

/-- Entry `cm[a][b]` of the confusion matrix: how many buffered pairs have true
label `a` and predicted label `b`. -/
def cmEntry (pairs : List (ℤ × ℤ)) (a b : ℤ) : ℕ :=
  pairs.count (a, b)

/-- Aggregate `total_TP = np.sum(np.diag(cm))` in `get_classification_confusion_matrix`. -/
def total_TP (pairs : List (ℤ × ℤ)) : ℤ :=
  ∑ a ∈ classesOf pairs, (cmEntry pairs a a : ℤ)

/-- Aggregate `total_FP = np.sum(np.sum(cm, axis=0) - np.diag(cm))`: column sums minus diagonal. -/
def total_FP (pairs : List (ℤ × ℤ)) : ℤ :=
  ∑ b ∈ classesOf pairs, ((∑ a ∈ classesOf pairs, (cmEntry pairs a b : ℤ)) - cmEntry pairs b b)

/-- Aggregate `total_FN = np.sum(np.sum(cm, axis=1) - np.diag(cm))`: row sums minus diagonal. -/
def total_FN (pairs : List (ℤ × ℤ)) : ℤ :=
  ∑ a ∈ classesOf pairs, ((∑ b ∈ classesOf pairs, (cmEntry pairs a b : ℤ)) - cmEntry pairs a a)

/-! Properties of the inner best-match loop -/

lemma bestMatchAux_spec (pred_box : Box) :
    ∀ (rest : List Box) (idx : ℕ) (acc : ℚ × Option ℕ),
      (acc.2 = none → acc.1 = 0) → (∀ j, acc.2 = some j → j < idx) →
      ((bestMatchAux pred_box rest idx acc).2 = none →
        (bestMatchAux pred_box rest idx acc).1 = 0) ∧
      (∀ j, (bestMatchAux pred_box rest idx acc).2 = some j → j < idx + rest.length) := by
  intro rest
  induction rest with
  | nil =>
    intro idx acc h1 h2
    refine ⟨h1, fun j hj => ?_⟩
    have := h2 j hj
    simpa using this
  | cons g rest ih =>
    intro idx acc h1 h2
    simp only [bestMatchAux]
    by_cases hlt : acc.1 < bbox_iou pred_box g
    · rw [if_pos hlt]
      have h := ih (idx + 1) (bbox_iou pred_box g, some idx)
        (by intro hcon; simp at hcon)
        (by intro j hj; simp at hj; omega)
      refine ⟨h.1, fun j hj => ?_⟩
      have := h.2 j hj
      simp only [List.length_cons]
      omega
    · rw [if_neg hlt]
      have h := ih (idx + 1) acc h1 (fun j hj => Nat.lt_succ_of_lt (h2 j hj))
      refine ⟨h.1, fun j hj => ?_⟩
      have := h.2 j hj
      simp only [List.length_cons]
      omega

lemma bestMatch_none_iou (pred_box : Box) (gt_boxes : List Box) :
    (bestMatch pred_box gt_boxes).2 = none → (bestMatch pred_box gt_boxes).1 = 0 :=
  (bestMatchAux_spec pred_box gt_boxes 0 (0, none) (fun _ => rfl) (by simp)).1

lemma bestMatch_some_lt (pred_box : Box) (gt_boxes : List Box) (j : ℕ) :
    (bestMatch pred_box gt_boxes).2 = some j → j < gt_boxes.length := by
  intro hj
  have := (bestMatchAux_spec pred_box gt_boxes 0 (0, none) (fun _ => rfl) (by simp)).2 j hj
  simpa using this

lemma bestMatch_pos (τ : ℚ) (hτ : 0 < τ) (pred_box : Box) (gt_boxes : List Box)
    (h : τ ≤ (bestMatch pred_box gt_boxes).1) :
    ∃ j, (bestMatch pred_box gt_boxes).2 = some j ∧ j < gt_boxes.length := by
  cases ho : (bestMatch pred_box gt_boxes).2 with
  | none =>
    exfalso
    have h0 := bestMatch_none_iou pred_box gt_boxes ho
    rw [h0] at h
    exact absurd (lt_of_lt_of_le hτ h) (lt_irrefl 0)
  | some j => exact ⟨j, rfl, bestMatch_some_lt pred_box gt_boxes j ho⟩

/-! Invariants of the detection-mode matcher -/

lemma matchBoxesStep_count (τ : ℚ) (gt_boxes : List Box) (s : MatchState) (p : Box) :
    (matchBoxesStep τ gt_boxes s p).tp + (matchBoxesStep τ gt_boxes s p).fp =
      s.tp + s.fp + 1 ∧
    s.tp ≤ (matchBoxesStep τ gt_boxes s p).tp ∧ s.fp ≤ (matchBoxesStep τ gt_boxes s p).fp := by
  unfold matchBoxesStep
  split_ifs <;> simp <;> omega

lemma matchBoxesRun_count (τ : ℚ) (gt_boxes : List Box) :
    ∀ (pred_boxes : List Box) (s : MatchState),
      (pred_boxes.foldl (matchBoxesStep τ gt_boxes) s).tp +
          (pred_boxes.foldl (matchBoxesStep τ gt_boxes) s).fp =
        s.tp + s.fp + pred_boxes.length ∧
      s.tp ≤ (pred_boxes.foldl (matchBoxesStep τ gt_boxes) s).tp ∧
      s.fp ≤ (pred_boxes.foldl (matchBoxesStep τ gt_boxes) s).fp := by
  intro pred_boxes
  induction pred_boxes with
  | nil => intro s; simp
  | cons p rest ih =>
    intro s
    have hstep := matchBoxesStep_count τ gt_boxes s p
    have hrest := ih (matchBoxesStep τ gt_boxes s p)
    simp only [List.foldl_cons, List.length_cons] at *
    push_cast at *
    omega

lemma matchBoxesStep_pos_inv (τ : ℚ) (hτ : 0 < τ) (gt_boxes : List Box) (s : MatchState)
    (p : Box) (h : s.tp = s.matched.card) :
    (matchBoxesStep τ gt_boxes s p).tp = (matchBoxesStep τ gt_boxes s p).matched.card ∧
    (matchBoxesStep τ gt_boxes s p).matched ⊆
      s.matched ∪ (Finset.range gt_boxes.length).image some := by
  unfold matchBoxesStep
  by_cases hth : τ ≤ (bestMatch p gt_boxes).1
  · obtain ⟨j, hj, hjlt⟩ := bestMatch_pos τ hτ p gt_boxes hth
    rw [if_pos hth]
    by_cases hmem : (bestMatch p gt_boxes).2 ∈ s.matched
    · rw [if_pos hmem]
      exact ⟨h, Finset.subset_union_left⟩
    · rw [if_neg hmem]
      constructor
      · simp only
        rw [Finset.card_insert_of_not_mem hmem, h]
        push_cast
        ring
      · simp only
        intro x hx
        rcases Finset.mem_insert.mp hx with hx | hx
        · subst hx
          rw [hj]
          exact Finset.mem_union_right _
            (Finset.mem_image.mpr ⟨j, Finset.mem_range.mpr hjlt, rfl⟩)
        · exact Finset.mem_union_left _ hx
  · rw [if_neg hth]
    exact ⟨h, Finset.subset_union_left⟩

lemma matchBoxesRun_pos_inv (τ : ℚ) (hτ : 0 < τ) (gt_boxes : List Box) :
    ∀ (pred_boxes : List Box) (s : MatchState), s.tp = s.matched.card →
      (pred_boxes.foldl (matchBoxesStep τ gt_boxes) s).tp =
        (pred_boxes.foldl (matchBoxesStep τ gt_boxes) s).matched.card ∧
      (pred_boxes.foldl (matchBoxesStep τ gt_boxes) s).matched ⊆
        s.matched ∪ (Finset.range gt_boxes.length).image some := by
  intro pred_boxes
  induction pred_boxes with
  | nil => intro s h; exact ⟨h, Finset.subset_union_left⟩
  | cons p rest ih =>
    intro s h
    have hstep := matchBoxesStep_pos_inv τ hτ gt_boxes s p h
    have hrest := ih (matchBoxesStep τ gt_boxes s p) hstep.1
    simp only [List.foldl_cons]
    refine ⟨hrest.1, hrest.2.trans ?_⟩
    intro x hx
    rcases Finset.mem_union.mp hx with hx | hx
    · exact hstep.2 hx
    · exact Finset.mem_union_right _ hx

/-! Invariants of the classification-mode matcher and the pair collector -/

lemma bestMatchPairs_some_lt (pred_box : Box) (gts : List (Box × ℤ)) (j : ℕ)
    (h : (bestMatchPairs pred_box gts).2 = some j) : j < gts.length := by
  have := bestMatch_some_lt pred_box (gts.map Prod.fst) j h
  simpa using this

lemma matchClassGo_inv (τ : ℚ) (gts : List (Box × ℤ)) (gt_labels : List ℤ) :
    ∀ (preds : List (Box × ℤ)) (s s' : MatchState),
      matchClassGo τ gts gt_labels preds s = some s' →
      0 ≤ s.tp → 0 ≤ s.fp → s.tp ≤ (s.matched.card : ℤ) →
      s.matched ⊆ (Finset.range gts.length).image some →
      0 ≤ s'.tp ∧ 0 ≤ s'.fp ∧ s'.tp ≤ (s'.matched.card : ℤ) ∧
        s'.matched ⊆ (Finset.range gts.length).image some := by
  intro preds
  induction preds with
  | nil =>
    intro s s' h h1 h2 h3 h4
    simp only [matchClassGo, Option.some.injEq] at h
    subst h
    exact ⟨h1, h2, h3, h4⟩
  | cons p rest ih =>
    intro s s' h h1 h2 h3 h4
    simp only [matchClassGo] at h
    by_cases hc : τ ≤ (bestMatchPairs p.1 gts).1 ∧ (bestMatchPairs p.1 gts).2 ∉ s.matched
    · rw [if_pos hc] at h
      split at h
      · exact absurd h (by simp)
      · rename_i idx ho
        split at h
        · exact absurd h (by simp)
        · rename_i gl hg
          have hidx : idx < gts.length := bestMatchPairs_some_lt p.1 gts idx ho
          have hnotmem : some idx ∉ s.matched := ho ▸ hc.2
          have hcard : (insert (some idx) s.matched).card = s.matched.card + 1 :=
            Finset.card_insert_of_not_mem hnotmem
          have hsub : insert (some idx) s.matched ⊆
              (Finset.range gts.length).image some := by
            intro x hx
            rcases Finset.mem_insert.mp hx with hx | hx
            · subst hx
              exact Finset.mem_image.mpr ⟨idx, Finset.mem_range.mpr hidx, rfl⟩
            · exact h4 hx
          by_cases hl : p.2 = gl
          · rw [if_pos hl] at h
            refine ih _ s' h ?_ h2 ?_ hsub
            · show 0 ≤ s.tp + 1
              omega
            · show s.tp + 1 ≤ ((insert (some idx) s.matched).card : ℤ)
              rw [hcard]
              push_cast
              omega
          · rw [if_neg hl] at h
            refine ih _ s' h h1 ?_ ?_ hsub
            · show 0 ≤ s.fp + 1
              omega
            · show s.tp ≤ ((insert (some idx) s.matched).card : ℤ)
              rw [hcard]
              push_cast
              omega
    · rw [if_neg hc] at h
      refine ih _ s' h h1 ?_ h3 h4
      show 0 ≤ s.fp + 1
      omega

lemma collectGo_append (τ : ℚ) (gts : List (Box × ℤ)) (gt_labels : List ℤ) :
    ∀ (preds : List (Box × ℤ)) (matched : Finset (Option ℕ)) (acc out : List (ℤ × ℤ)),
      collectGo τ gts gt_labels preds matched acc = some out → ∃ tail, out = acc ++ tail := by
  intro preds
  induction preds with
  | nil =>
    intro matched acc out h
    simp only [collectGo, Option.some.injEq] at h
    exact ⟨[], by simp [h.symm]⟩
  | cons p rest ih =>
    intro matched acc out h
    simp only [collectGo] at h
    by_cases hc : τ ≤ (bestMatchPairs p.1 gts).1 ∧ (bestMatchPairs p.1 gts).2 ∉ matched
    · rw [if_pos hc] at h
      split at h
      · exact absurd h (by simp)
      · rename_i idx ho
        split at h
        · exact absurd h (by simp)
        · rename_i gl hg
          obtain ⟨tail, htail⟩ := ih _ _ _ h
          exact ⟨(gl, p.2) :: tail, by simp [htail]⟩
    · rw [if_neg hc] at h
      exact ih _ _ _ h

/-! Silent truncation by pairwise iteration -/

lemma zip_eq_zip_take {α β : Type} :
    ∀ (xs : List α) (ys : List β),
      xs.zip ys = (xs.take (min xs.length ys.length)).zip
        (ys.take (min xs.length ys.length)) := by
  intro xs
  induction xs with
  | nil => intro ys; simp
  | cons x xs ih =>
    intro ys
    cases ys with
    | nil => simp
    | cons y ys =>
      simp only [List.zip_cons_cons, List.length_cons]
      rw [Nat.succ_min_succ]
      simp only [List.take_succ_cons, List.zip_cons_cons]
      rw [← ih ys]

/-! Geometry kernel lemmas -/

lemma inter_area_comm (box1 box2 : Box) : inter_area box1 box2 = inter_area box2 box1 := by
  unfold inter_area
  rw [min_comm box1.x2 box2.x2, max_comm box1.x1 box2.x1,
    min_comm box1.y2 box2.y2, max_comm box1.y1 box2.y1]

lemma union_area_comm (box1 box2 : Box) : union_area box1 box2 = union_area box2 box1 := by
  unfold union_area
  rw [inter_area_comm]
  ring

lemma inter_area_nonneg (box1 box2 : Box) : 0 ≤ inter_area box1 box2 :=
  mul_nonneg (le_max_right _ _) (le_max_right _ _)

lemma box_area_nonneg (b : Box) (h1 : b.x1 ≤ b.x2) (h2 : b.y1 ≤ b.y2) : 0 ≤ box_area b :=
  mul_nonneg (sub_nonneg.mpr h1) (sub_nonneg.mpr h2)

lemma inter_area_le_left (box1 box2 : Box) (h1 : box1.x1 ≤ box1.x2) (h2 : box1.y1 ≤ box1.y2) :
    inter_area box1 box2 ≤ box_area box1 := by
  unfold inter_area box_area
  have hx : max (min box1.x2 box2.x2 - max box1.x1 box2.x1) 0 ≤ box1.x2 - box1.x1 := by
    apply max_le
    · have hmin : min box1.x2 box2.x2 ≤ box1.x2 := min_le_left _ _
      have hmax : box1.x1 ≤ max box1.x1 box2.x1 := le_max_left _ _
      linarith
    · linarith
  have hy : max (min box1.y2 box2.y2 - max box1.y1 box2.y1) 0 ≤ box1.y2 - box1.y1 := by
    apply max_le
    · have hmin : min box1.y2 box2.y2 ≤ box1.y2 := min_le_left _ _
      have hmax : box1.y1 ≤ max box1.y1 box2.y1 := le_max_left _ _
      linarith
    · linarith
  exact mul_le_mul hx hy (le_max_right _ _) (by linarith)

lemma inter_area_le_right (box1 box2 : Box) (h1 : box2.x1 ≤ box2.x2) (h2 : box2.y1 ≤ box2.y2) :
    inter_area box1 box2 ≤ box_area box2 := by
  rw [inter_area_comm]
  exact inter_area_le_left box2 box1 h1 h2

/-! Confusion-matrix counting lemma -/

lemma mem_classesOf (pairs : List (ℤ × ℤ)) :
    ∀ x ∈ pairs, x.1 ∈ classesOf pairs ∧ x.2 ∈ classesOf pairs := by
  intro x hx
  constructor
  · simp only [classesOf, List.mem_toFinset, List.mem_append, List.mem_map]
    exact Or.inl ⟨x, hx, rfl⟩
  · simp only [classesOf, List.mem_toFinset, List.mem_append, List.mem_map]
    exact Or.inr ⟨x, hx, rfl⟩

lemma sum_sum_count (S : Finset ℤ) :
    ∀ (l : List (ℤ × ℤ)), (∀ x ∈ l, x.1 ∈ S ∧ x.2 ∈ S) →
      ∑ a ∈ S, ∑ b ∈ S, (l.count (a, b) : ℤ) = l.length := by
  intro l
  induction l with
  | nil => intro _; simp
  | cons x l ih =>
    intro h
    have hx := h x (List.mem_cons_self x l)
    have hl : ∀ y ∈ l, y.1 ∈ S ∧ y.2 ∈ S := fun y hy => h y (List.mem_cons_of_mem x hy)
    have hcount : ∀ a b : ℤ,
        ((x :: l).count (a, b) : ℤ) = (l.count (a, b) : ℤ) + if (a, b) = x then 1 else 0 := by
      intro a b
      rw [List.count_cons]
      by_cases hab : (a, b) = x
      · simp [hab]
      · have hab' : ¬ x = (a, b) := fun hh => hab hh.symm
        simp [hab, hab']
    have hsplit : ∑ a ∈ S, ∑ b ∈ S, ((x :: l).count (a, b) : ℤ) =
        (∑ a ∈ S, ∑ b ∈ S, (l.count (a, b) : ℤ)) +
          ∑ a ∈ S, ∑ b ∈ S, (if (a, b) = x then (1 : ℤ) else 0) := by
      rw [← Finset.sum_add_distrib]
      apply Finset.sum_congr rfl
      intro a _
      rw [← Finset.sum_add_distrib]
      apply Finset.sum_congr rfl
      intro b _
      exact hcount a b
    have hone : ∑ a ∈ S, ∑ b ∈ S, (if (a, b) = x then (1 : ℤ) else 0) = 1 := by
      have hprod : ∑ p ∈ S ×ˢ S, (if p = x then (1 : ℤ) else 0) =
          ∑ a ∈ S, ∑ b ∈ S, (if (a, b) = x then (1 : ℤ) else 0) := by
        rw [← Finset.sum_product']
      rw [← hprod, Finset.sum_ite_eq' (S ×ˢ S) x (fun _ => (1 : ℤ)),
        if_pos (Finset.mem_product.mpr ⟨hx.1, hx.2⟩)]
    rw [hsplit, ih hl, hone]
    simp only [List.length_cons]
    push_cast
    ring

lemma matchBoxesRun_count0 (τ : ℚ) (gt_boxes pred_boxes : List Box) :
    (matchBoxesRun τ gt_boxes pred_boxes).tp + (matchBoxesRun τ gt_boxes pred_boxes).fp =
      pred_boxes.length ∧
    0 ≤ (matchBoxesRun τ gt_boxes pred_boxes).tp ∧
    0 ≤ (matchBoxesRun τ gt_boxes pred_boxes).fp := by
  have h := matchBoxesRun_count τ gt_boxes pred_boxes ⟨0, 0, ∅⟩
  simp only [matchBoxesRun]
  simp at h
  exact ⟨by omega, by omega, by omega⟩

lemma matchBoxesRun_pos0 (τ : ℚ) (hτ : 0 < τ) (gt_boxes pred_boxes : List Box) :
    (matchBoxesRun τ gt_boxes pred_boxes).tp =
      ((matchBoxesRun τ gt_boxes pred_boxes).matched.card : ℤ) ∧
    (matchBoxesRun τ gt_boxes pred_boxes).matched ⊆
      (Finset.range gt_boxes.length).image some := by
  have h := matchBoxesRun_pos_inv τ hτ gt_boxes pred_boxes ⟨0, 0, ∅⟩ (by simp)
  refine ⟨h.1, h.2.trans ?_⟩
  intro x hx
  rcases Finset.mem_union.mp hx with hx | hx
  · exact absurd hx (Finset.not_mem_empty x)
  · exact hx

lemma matchBoxesRun_card_le (τ : ℚ) (hτ : 0 < τ) (gt_boxes pred_boxes : List Box) :
    (matchBoxesRun τ gt_boxes pred_boxes).matched.card ≤ gt_boxes.length := by
  calc (matchBoxesRun τ gt_boxes pred_boxes).matched.card
      ≤ ((Finset.range gt_boxes.length).image some).card :=
        Finset.card_le_card (matchBoxesRun_pos0 τ hτ gt_boxes pred_boxes).2
    _ ≤ (Finset.range gt_boxes.length).card := Finset.card_image_le
    _ = gt_boxes.length := Finset.card_range _

/-! Claim theorems, one per claim of the specification review -/

/-- Claim C7: for all axis-aligned boxes `A` and `B` with `x2 ≥ x1` and `y2 ≥ y1`,
`bbox_iou` is symmetric (`bbox_iou A B = bbox_iou B A`) and its result lies in the
closed interval `[0, 1]`. -/
theorem bbox_iou_symm_and_bounds (A B : Box) (hA1 : A.x1 ≤ A.x2) (hA2 : A.y1 ≤ A.y2)
    (hB1 : B.x1 ≤ B.x2) (hB2 : B.y1 ≤ B.y2) :
    bbox_iou A B = bbox_iou B A ∧ 0 ≤ bbox_iou A B ∧ bbox_iou A B ≤ 1 := by
  have hsymm : bbox_iou A B = bbox_iou B A := by
    unfold bbox_iou
    rw [union_area_comm A B, inter_area_comm A B]
  refine ⟨hsymm, ?_⟩
  by_cases h : union_area A B = 0
  · rw [bbox_iou, if_neg (by simp [h])]
    norm_num
  · have hI := inter_area_nonneg A B
    have hIA := inter_area_le_left A B hA1 hA2
    have hIB := inter_area_le_right A B hB1 hB2
    have hAA := box_area_nonneg A hA1 hA2
    have hBB := box_area_nonneg B hB1 hB2
    have hUnn : 0 ≤ union_area A B := by
      unfold union_area
      linarith
    have hUpos : 0 < union_area A B := lt_of_le_of_ne hUnn (Ne.symm h)
    have hIle : inter_area A B ≤ union_area A B := by
      unfold union_area
      linarith
    rw [bbox_iou, if_pos h]
    exact ⟨div_nonneg hI hUnn, (div_le_one hUpos).mpr hIle⟩

/-- Witness for C7 at two concrete overlapping boxes. -/
theorem bbox_iou_symm_and_bounds_witness :
    bbox_iou ⟨0, 0, 2, 2⟩ ⟨1, 1, 3, 3⟩ = bbox_iou ⟨1, 1, 3, 3⟩ ⟨0, 0, 2, 2⟩ ∧
    0 ≤ bbox_iou ⟨0, 0, 2, 2⟩ ⟨1, 1, 3, 3⟩ ∧ bbox_iou ⟨0, 0, 2, 2⟩ ⟨1, 1, 3, 3⟩ ≤ 1 :=
  bbox_iou_symm_and_bounds ⟨0, 0, 2, 2⟩ ⟨1, 1, 3, 3⟩ (by norm_num) (by norm_num)
    (by norm_num) (by norm_num)

/-- Claim C8: when the union area of the two boxes is `0`, `bbox_iou` returns `0`
through the guarded branch; the division branch is not taken. -/
theorem bbox_iou_zero_union (box1 box2 : Box) (h : union_area box1 box2 = 0) :
    bbox_iou box1 box2 = 0 := by
  rw [bbox_iou, if_neg (by simp [h])]

/-- Witness for C8: two zero-area boxes at the same point give IoU `0`. -/
theorem bbox_iou_zero_union_witness :
    union_area ⟨1, 1, 1, 1⟩ ⟨1, 1, 1, 1⟩ = 0 ∧ bbox_iou ⟨1, 1, 1, 1⟩ ⟨1, 1, 1, 1⟩ = 0 :=
  ⟨by norm_num [union_area, inter_area, box_area],
    bbox_iou_zero_union ⟨1, 1, 1, 1⟩ ⟨1, 1, 1, 1⟩
      (by norm_num [union_area, inter_area, box_area])⟩

/-- Claim C9: for every confusion buffer of `N` pairs, the confusion-matrix-derived
aggregates satisfy `sum(per-class TP) + sum(per-class FP) = N` and
`sum(per-class TP) + sum(per-class FN) = N`. -/
theorem confusion_totals (pairs : List (ℤ × ℤ)) :
    total_TP pairs + total_FP pairs = pairs.length ∧
    total_TP pairs + total_FN pairs = pairs.length := by
  have hN := sum_sum_count (classesOf pairs) pairs (mem_classesOf pairs)
  constructor
  · simp only [total_TP, total_FP, cmEntry]
    rw [Finset.sum_sub_distrib, Finset.sum_comm, hN]
    ring
  · simp only [total_TP, total_FN, cmEntry]
    rw [Finset.sum_sub_distrib, hN]
    ring

/-- Claim C2: whenever the classification-mode matcher returns a result, its `fn`
equals the number of ground-truth labels minus its `tp` (this is literally
`fn = len(gt_labels) - tp`, so a claimed-but-misclassified match still reduces
neither `tp` nor the count of ground-truth labels). -/
theorem match_classification_fn_identity (τ : ℚ) (gt_boxes : List Box)
    (gt_labels : List ℤ) (pred_boxes : List Box) (pred_labels : List ℤ) (r : MatchResult)
    (h : match_classification τ gt_boxes gt_labels pred_boxes pred_labels = some r) :
    r.fn = (gt_labels.length : ℤ) - r.tp := by
  unfold match_classification at h
  rcases Option.map_eq_some'.mp h with ⟨s, _, hr⟩
  subst hr
  rfl

/-- Witness for C2: one ground-truth box with label `5`, one perfectly overlapping
prediction with wrong label `3`; the ground-truth index is claimed but misclassified
(`tp = 0`, `fp = 1`) and `fn = 1 - 0`. -/
theorem match_classification_fn_identity_witness :
    match_classification (1 / 2) [⟨0, 0, 10, 10⟩] [5] [⟨0, 0, 10, 10⟩] [3] =
      some ⟨0, 1, 1⟩ ∧
    (MatchResult.mk 0 1 1).fn = (([(5 : ℤ)]).length : ℤ) - (MatchResult.mk 0 1 1).tp :=
  ⟨by norm_num [match_classification, matchClassGo, bestMatchPairs, bestMatch, bestMatchAux,
      bbox_iou, union_area, inter_area, box_area, min_def, max_def],
    match_classification_fn_identity (1 / 2) [⟨0, 0, 10, 10⟩] [5] [⟨0, 0, 10, 10⟩] [3]
      ⟨0, 1, 1⟩
      (by norm_num [match_classification, matchClassGo, bestMatchPairs, bestMatch, bestMatchAux,
        bbox_iou, union_area, inter_area, box_area, min_def, max_def])⟩

/-- Claim C1, amended: for a strictly positive IoU threshold, the detection-mode
matcher satisfies `tp ≤ min(G, P)`, `fp = P - tp`, and `fn = G` minus the number of
distinct claimed ground-truth indices; every claimed element is a valid
ground-truth index.  (As stated over every threshold the claim fails: with
threshold `0` the Python code claims the `None` sentinel.) -/
theorem match_boxes_conservation (τ : ℚ) (hτ : 0 < τ) (gt_boxes pred_boxes : List Box) :
    (match_boxes τ gt_boxes pred_boxes).tp ≤
      (min gt_boxes.length pred_boxes.length : ℤ) ∧
    (match_boxes τ gt_boxes pred_boxes).fp =
      (pred_boxes.length : ℤ) - (match_boxes τ gt_boxes pred_boxes).tp ∧
    (match_boxes τ gt_boxes pred_boxes).fn =
      (gt_boxes.length : ℤ) - ((matchBoxesRun τ gt_boxes pred_boxes).matched.card : ℤ) ∧
    (matchBoxesRun τ gt_boxes pred_boxes).matched ⊆
      (Finset.range gt_boxes.length).image some := by
  have hcount := matchBoxesRun_count0 τ gt_boxes pred_boxes
  have hpos := matchBoxesRun_pos0 τ hτ gt_boxes pred_boxes
  have hcard := matchBoxesRun_card_le τ hτ gt_boxes pred_boxes
  refine ⟨?_, ?_, rfl, hpos.2⟩
  · show (matchBoxesRun τ gt_boxes pred_boxes).tp ≤ _
    rw [hpos.1]
    omega
  · show (matchBoxesRun τ gt_boxes pred_boxes).fp =
      (pred_boxes.length : ℤ) - (matchBoxesRun τ gt_boxes pred_boxes).tp
    omega

/-- Counterexample to C1 as stated: with threshold `0`, empty ground truth and one
prediction, the best match is `(0, None)`, `0 >= 0` holds, and `None` is claimed,
so `tp = 1 > min(0, 1) = 0`. -/
theorem match_boxes_conservation_counterexample :
    ¬ ((match_boxes 0 [] [⟨0, 0, 1, 1⟩]).tp ≤
        (min ([] : List Box).length [(⟨0, 0, 1, 1⟩ : Box)].length : ℤ)) := by
  norm_num [match_boxes, matchBoxesRun, matchBoxesStep, bestMatch, bestMatchAux]

/-- Witness for the amended C1 at a concrete positive threshold. -/
theorem match_boxes_conservation_witness :
    (match_boxes (1 / 2) [⟨0, 0, 4, 4⟩] [⟨0, 0, 4, 4⟩, ⟨9, 9, 11, 11⟩]).tp ≤
      (min [(⟨0, 0, 4, 4⟩ : Box)].length
        [(⟨0, 0, 4, 4⟩ : Box), ⟨9, 9, 11, 11⟩].length : ℤ) ∧
    (match_boxes (1 / 2) [⟨0, 0, 4, 4⟩] [⟨0, 0, 4, 4⟩, ⟨9, 9, 11, 11⟩]).fp =
      ([(⟨0, 0, 4, 4⟩ : Box), ⟨9, 9, 11, 11⟩].length : ℤ) -
        (match_boxes (1 / 2) [⟨0, 0, 4, 4⟩] [⟨0, 0, 4, 4⟩, ⟨9, 9, 11, 11⟩]).tp ∧
    (match_boxes (1 / 2) [⟨0, 0, 4, 4⟩] [⟨0, 0, 4, 4⟩, ⟨9, 9, 11, 11⟩]).fn =
      ([(⟨0, 0, 4, 4⟩ : Box)].length : ℤ) -
        ((matchBoxesRun (1 / 2) [⟨0, 0, 4, 4⟩]
          [⟨0, 0, 4, 4⟩, ⟨9, 9, 11, 11⟩]).matched.card : ℤ) ∧
    (matchBoxesRun (1 / 2) [⟨0, 0, 4, 4⟩] [⟨0, 0, 4, 4⟩, ⟨9, 9, 11, 11⟩]).matched ⊆
      (Finset.range [(⟨0, 0, 4, 4⟩ : Box)].length).image some :=
  match_boxes_conservation (1 / 2) (by norm_num) [⟨0, 0, 4, 4⟩] [⟨0, 0, 4, 4⟩, ⟨9, 9, 11, 11⟩]

/-- Claim C5, amended: for every strictly positive threshold, matching against an
empty ground-truth list gives `tp = 0, fp = len(preds), fn = 0`; and for every
threshold and every ground-truth list (non-empty or not), matching an empty
prediction list gives `tp = 0, fp = 0, fn = len(gts)`.  (As stated over every
threshold the first clause fails at threshold `0`.) -/
theorem match_boxes_empty_boundaries (τ : ℚ) (pred_boxes gt_boxes : List Box) :
    (0 < τ → match_boxes τ [] pred_boxes = ⟨0, pred_boxes.length, 0⟩) ∧
    match_boxes τ gt_boxes [] = ⟨0, 0, gt_boxes.length⟩ := by
  constructor
  · intro hτ
    have hcount := matchBoxesRun_count0 τ [] pred_boxes
    have hpos := matchBoxesRun_pos0 τ hτ [] pred_boxes
    have hemp : (matchBoxesRun τ [] pred_boxes).matched = ∅ := by
      refine Finset.subset_empty.mp ?_
      have := hpos.2
      simpa using this
    have htp : (matchBoxesRun τ [] pred_boxes).tp = 0 := by
      rw [hpos.1, hemp]
      simp
    simp only [match_boxes, MatchResult.mk.injEq]
    refine ⟨htp, by omega, ?_⟩
    rw [hemp]
    simp
  · simp [match_boxes, matchBoxesRun]

/-- Counterexample to C5 as stated: with threshold `0` and empty ground truth the
matcher does not return `(0, 1, 0)` on one prediction (it returns `(1, 0, -1)`). -/
theorem match_boxes_empty_boundaries_counterexample :
    match_boxes 0 [] [⟨2, 2, 3, 3⟩] ≠ ⟨0, 1, 0⟩ := by
  norm_num [match_boxes, matchBoxesRun, matchBoxesStep, bestMatch, bestMatchAux,
    MatchResult.mk.injEq]

/-- Witness for the amended C5 at threshold `1/2`. -/
theorem match_boxes_empty_boundaries_witness :
    match_boxes (1 / 2) [] [⟨0, 0, 1, 1⟩] = ⟨0, 1, 0⟩ ∧
    match_boxes (1 / 2) [⟨5, 5, 6, 6⟩] [] = ⟨0, 0, 1⟩ :=
  ⟨(match_boxes_empty_boundaries (1 / 2) [⟨0, 0, 1, 1⟩] [⟨5, 5, 6, 6⟩]).1 (by norm_num),
    (match_boxes_empty_boundaries (1 / 2) [⟨0, 0, 1, 1⟩] [⟨5, 5, 6, 6⟩]).2⟩

/-- Claim C6, amended: `tp` and `fp` are always nonnegative; the detection-mode `fn`
is nonnegative whenever the threshold is strictly positive, and all three components
of a classification-mode result are nonnegative whenever the matcher returns one.
(As stated over every accepted threshold the claim fails: detection-mode `fn` is
`-1` at threshold `0` on empty ground truth and one prediction.) -/
theorem match_results_nonneg :
    (∀ (τ : ℚ) (gt_boxes pred_boxes : List Box),
      0 ≤ (match_boxes τ gt_boxes pred_boxes).tp ∧
      0 ≤ (match_boxes τ gt_boxes pred_boxes).fp ∧
      (0 < τ → 0 ≤ (match_boxes τ gt_boxes pred_boxes).fn)) ∧
    (∀ (τ : ℚ) (gt_boxes : List Box) (gt_labels : List ℤ) (pred_boxes : List Box)
        (pred_labels : List ℤ) (r : MatchResult),
      match_classification τ gt_boxes gt_labels pred_boxes pred_labels = some r →
      0 ≤ r.tp ∧ 0 ≤ r.fp ∧ 0 ≤ r.fn) := by
  constructor
  · intro τ gt_boxes pred_boxes
    have hcount := matchBoxesRun_count0 τ gt_boxes pred_boxes
    refine ⟨hcount.2.1, hcount.2.2, ?_⟩
    intro hτ
    have hcard := matchBoxesRun_card_le τ hτ gt_boxes pred_boxes
    show (0 : ℤ) ≤ (gt_boxes.length : ℤ) -
      ((matchBoxesRun τ gt_boxes pred_boxes).matched.card : ℤ)
    omega
  · intro τ gt_boxes gt_labels pred_boxes pred_labels r h
    unfold match_classification at h
    rcases Option.map_eq_some'.mp h with ⟨s, hs, hr⟩
    subst hr
    have hinv := matchClassGo_inv τ (gt_boxes.zip gt_labels) gt_labels
      (pred_boxes.zip pred_labels) ⟨0, 0, ∅⟩ s hs (by simp) (by simp) (by simp) (by simp)
    have hcard : s.matched.card ≤ (gt_boxes.zip gt_labels).length := by
      calc s.matched.card
          ≤ ((Finset.range (gt_boxes.zip gt_labels).length).image some).card :=
            Finset.card_le_card hinv.2.2.2
        _ ≤ (Finset.range (gt_boxes.zip gt_labels).length).card := Finset.card_image_le
        _ = (gt_boxes.zip gt_labels).length := Finset.card_range _
    have hlen : (gt_boxes.zip gt_labels).length ≤ gt_labels.length := by
      rw [List.length_zip]
      exact min_le_right _ _
    have htp := hinv.2.2.1
    refine ⟨hinv.1, hinv.2.1, ?_⟩
    show (0 : ℤ) ≤ (gt_labels.length : ℤ) - s.tp
    push_cast at htp
    omega

/-- Counterexample to C6 as stated: at threshold `0` the detection-mode `fn` is
negative. -/
theorem match_results_nonneg_counterexample :
    (match_boxes 0 [] [⟨5, 5, 6, 6⟩]).fn < 0 := by
  norm_num [match_boxes, matchBoxesRun, matchBoxesStep, bestMatch, bestMatchAux]

/-- Witness for the amended C6 at concrete inputs for both matchers. -/
theorem match_results_nonneg_witness :
    (0 ≤ (match_boxes (1 / 2) [⟨0, 0, 4, 4⟩] [⟨1, 1, 2, 2⟩]).tp ∧
     0 ≤ (match_boxes (1 / 2) [⟨0, 0, 4, 4⟩] [⟨1, 1, 2, 2⟩]).fp ∧
     0 ≤ (match_boxes (1 / 2) [⟨0, 0, 4, 4⟩] [⟨1, 1, 2, 2⟩]).fn) ∧
    (0 ≤ (MatchResult.mk 1 0 0).tp ∧ 0 ≤ (MatchResult.mk 1 0 0).fp ∧
     0 ≤ (MatchResult.mk 1 0 0).fn) := by
  constructor
  · exact ⟨(match_results_nonneg.1 (1 / 2) [⟨0, 0, 4, 4⟩] [⟨1, 1, 2, 2⟩]).1,
      (match_results_nonneg.1 (1 / 2) [⟨0, 0, 4, 4⟩] [⟨1, 1, 2, 2⟩]).2.1,
      (match_results_nonneg.1 (1 / 2) [⟨0, 0, 4, 4⟩] [⟨1, 1, 2, 2⟩]).2.2 (by norm_num)⟩
  · exact match_results_nonneg.2 (1 / 2) [⟨0, 0, 10, 10⟩] [7] [⟨0, 0, 10, 10⟩] [7] ⟨1, 0, 0⟩
      (by norm_num [match_classification, matchClassGo, bestMatchPairs, bestMatch,
        bestMatchAux, bbox_iou, union_area, inter_area, box_area, min_def, max_def])

/-- Claim C10: with a strictly positive threshold, at every point of the prediction
loop the running `tp` equals the number of claimed indices and the `None` sentinel is
never claimed; consequently the returned `fn` also equals `G - tp`, so the detection
and classification FN formulas coincide in this regime. -/
theorem match_boxes_tp_eq_claimed (τ : ℚ) (hτ : 0 < τ) (gt_boxes pred_boxes : List Box)
    (s : MatchState) (h1 : s.tp = s.matched.card) (h2 : none ∉ s.matched) :
    (pred_boxes.foldl (matchBoxesStep τ gt_boxes) s).tp =
      ((pred_boxes.foldl (matchBoxesStep τ gt_boxes) s).matched.card : ℤ) ∧
    none ∉ (pred_boxes.foldl (matchBoxesStep τ gt_boxes) s).matched ∧
    (match_boxes τ gt_boxes pred_boxes).fn =
      (gt_boxes.length : ℤ) - (match_boxes τ gt_boxes pred_boxes).tp := by
  have hinv := matchBoxesRun_pos_inv τ hτ gt_boxes pred_boxes s h1
  refine ⟨hinv.1, ?_, ?_⟩
  · intro hmem
    rcases Finset.mem_union.mp (hinv.2 hmem) with hm | hm
    · exact h2 hm
    · rcases Finset.mem_image.mp hm with ⟨j, _, hj⟩
      exact Option.noConfusion hj
  · have hpos := matchBoxesRun_pos0 τ hτ gt_boxes pred_boxes
    show (gt_boxes.length : ℤ) - ((matchBoxesRun τ gt_boxes pred_boxes).matched.card : ℤ) =
      (gt_boxes.length : ℤ) - (matchBoxesRun τ gt_boxes pred_boxes).tp
    rw [hpos.1]

/-- Witness for C10 at a concrete positive threshold and matching pair. -/
theorem match_boxes_tp_eq_claimed_witness :
    ([(⟨0, 0, 2, 2⟩ : Box)].foldl (matchBoxesStep (1 / 2) [⟨0, 0, 2, 2⟩])
        ⟨0, 0, ∅⟩).tp =
      (([(⟨0, 0, 2, 2⟩ : Box)].foldl (matchBoxesStep (1 / 2) [⟨0, 0, 2, 2⟩])
        ⟨0, 0, ∅⟩).matched.card : ℤ) ∧
    none ∉ ([(⟨0, 0, 2, 2⟩ : Box)].foldl (matchBoxesStep (1 / 2) [⟨0, 0, 2, 2⟩])
        ⟨0, 0, ∅⟩).matched ∧
    (match_boxes (1 / 2) [⟨0, 0, 2, 2⟩] [⟨0, 0, 2, 2⟩]).fn =
      (([(⟨0, 0, 2, 2⟩ : Box)].length : ℕ) : ℤ) -
        (match_boxes (1 / 2) [⟨0, 0, 2, 2⟩] [⟨0, 0, 2, 2⟩]).tp :=
  match_boxes_tp_eq_claimed (1 / 2) (by norm_num) [⟨0, 0, 2, 2⟩] [⟨0, 0, 2, 2⟩]
    ⟨0, 0, ∅⟩ (by simp) (by simp)

/-- Claim C3, corrected: inconsistent shapes do NOT fail the evaluator; the pairwise
`zip` iteration silently truncates the longer sequence to the shorter one, both for
the prediction box/label lists of the classification matcher and for the per-image
ground-truth box/label split (while `fn` still counts the full `gt_labels` list). -/
theorem mismatched_shapes_truncate :
    (∀ (τ : ℚ) (gt_boxes : List Box) (gt_labels : List ℤ) (pred_boxes : List Box)
        (pred_labels : List ℤ),
      match_classification τ gt_boxes gt_labels pred_boxes pred_labels =
        match_classification τ gt_boxes gt_labels
          (pred_boxes.take (min pred_boxes.length pred_labels.length))
          (pred_labels.take (min pred_boxes.length pred_labels.length))) ∧
    (∀ (boxes : List Box) (labels : List ℤ),
      splitEntities boxes labels =
        splitEntities (boxes.take (min boxes.length labels.length))
          (labels.take (min boxes.length labels.length))) := by
  constructor
  · intro τ gt_boxes gt_labels pred_boxes pred_labels
    unfold match_classification
    rw [← zip_eq_zip_take pred_boxes pred_labels]
  · intro boxes labels
    unfold splitEntities
    rw [← zip_eq_zip_take boxes labels]

/-- Counterexample to C3 as stated: two prediction boxes but only one prediction
label is not an error; the matcher returns a result equal to the truncated one (the
extra far-away box is silently dropped, not even counted as a false positive). -/
theorem mismatched_shapes_truncate_counterexample :
    match_classification (1 / 2) [⟨0, 0, 10, 10⟩] [7]
        [⟨0, 0, 10, 10⟩, ⟨100, 100, 110, 110⟩] [7] = some ⟨1, 0, 0⟩ ∧
    match_classification (1 / 2) [⟨0, 0, 10, 10⟩] [7]
        [⟨0, 0, 10, 10⟩, ⟨100, 100, 110, 110⟩] [7] =
      match_classification (1 / 2) [⟨0, 0, 10, 10⟩] [7] [⟨0, 0, 10, 10⟩] [7] := by
  constructor <;>
    norm_num [match_classification, matchClassGo, bestMatchPairs, bestMatch,
      bestMatchAux, bbox_iou, union_area, inter_area, box_area, min_def, max_def]

/-- Claim C4: in the per-image cascade step, the segmentation-only counters advance
by exactly this image's character match result and the confusion buffer is extended
(by the conditioned pair collector, starting from the old buffer) if and only if the
plate match for this image yielded `tp = 1`; otherwise the conditioned tallies and
the buffer are untouched.  The unconditional segmentation and classification
counters advance either way. -/
theorem processImage_conditioning (τ : ℚ) (pt cbt : ℕ → List Box) (clt : ℕ → List ℤ)
    (s : EvalState) (img : Image) (s' : EvalState)
    (h : processImage τ pt cbt clt s img = some s') :
    (s'.tp_seg = s.tp_seg + (match_boxes τ (splitEntities img.boxes img.labels).2.1
        (cbt img.filename)).tp ∧
     s'.fp_seg = s.fp_seg + (match_boxes τ (splitEntities img.boxes img.labels).2.1
        (cbt img.filename)).fp ∧
     s'.fn_seg = s.fn_seg + (match_boxes τ (splitEntities img.boxes img.labels).2.1
        (cbt img.filename)).fn) ∧
    ((match_classification τ (splitEntities img.boxes img.labels).2.1
        (splitEntities img.boxes img.labels).2.2 (cbt img.filename)
        (clt img.filename)).map (fun m => s.tp_class + m.tp) = some s'.tp_class ∧
     (match_classification τ (splitEntities img.boxes img.labels).2.1
        (splitEntities img.boxes img.labels).2.2 (cbt img.filename)
        (clt img.filename)).map (fun m => s.fp_class + m.fp) = some s'.fp_class ∧
     (match_classification τ (splitEntities img.boxes img.labels).2.1
        (splitEntities img.boxes img.labels).2.2 (cbt img.filename)
        (clt img.filename)).map (fun m => s.fn_class + m.fn) = some s'.fn_class) ∧
    ((match_boxes τ (splitEntities img.boxes img.labels).1 (pt img.filename)).tp = 1 →
      (s'.tp_seg_only = s.tp_seg_only +
          (match_boxes τ (splitEntities img.boxes img.labels).2.1 (cbt img.filename)).tp ∧
       s'.fp_seg_only = s.fp_seg_only +
          (match_boxes τ (splitEntities img.boxes img.labels).2.1 (cbt img.filename)).fp ∧
       s'.fn_seg_only = s.fn_seg_only +
          (match_boxes τ (splitEntities img.boxes img.labels).2.1 (cbt img.filename)).fn) ∧
      match_classification_detected_only τ (splitEntities img.boxes img.labels).2.1
        (splitEntities img.boxes img.labels).2.2 (cbt img.filename) (clt img.filename)
        s.buffer = some s'.buffer ∧
      s'.buffer.take s.buffer.length = s.buffer) ∧
    ((match_boxes τ (splitEntities img.boxes img.labels).1 (pt img.filename)).tp ≠ 1 →
      s'.tp_seg_only = s.tp_seg_only ∧ s'.fp_seg_only = s.fp_seg_only ∧
      s'.fn_seg_only = s.fn_seg_only ∧ s'.buffer = s.buffer) := by
  simp only [processImage] at h
  split at h
  · exact absurd h (by simp)
  · rename_i mcl hmc
    rw [hmc]
    by_cases hp : (match_boxes τ (splitEntities img.boxes img.labels).1
        (pt img.filename)).tp = 1
    · rw [if_pos hp] at h
      split at h
      · exact absurd h (by simp)
      · rename_i buf hbuf
        rw [Option.some.injEq] at h
        subst h
        refine ⟨⟨rfl, rfl, rfl⟩, ⟨rfl, rfl, rfl⟩, ?_, ?_⟩
        · intro _
          refine ⟨⟨rfl, rfl, rfl⟩, hbuf, ?_⟩
          have hgo : collectGo τ
              ((splitEntities img.boxes img.labels).2.1.zip
                (splitEntities img.boxes img.labels).2.2)
              (splitEntities img.boxes img.labels).2.2
              ((cbt img.filename).zip (clt img.filename)) ∅ s.buffer = some buf := hbuf
          obtain ⟨tail, htail⟩ := collectGo_append τ _ _ _ _ _ _ hgo
          show buf.take s.buffer.length = s.buffer
          rw [htail, List.take_left]
        · intro hp'
          exact absurd hp hp'
    · rw [if_neg hp] at h
      rw [Option.some.injEq] at h
      subst h
      refine ⟨⟨rfl, rfl, rfl⟩, ⟨rfl, rfl, rfl⟩, ?_, ?_⟩
      · intro hp'
        exact absurd hp' hp
      · intro _
        exact ⟨rfl, rfl, rfl, rfl⟩

/-- Witness for C4: one image whose plate is detected exactly (`tp = 1`); its single
character result is added to the conditioned tallies and the pair `(4, 4)` is
appended to the empty confusion buffer. -/
theorem processImage_conditioning_witness :
    processImage (1 / 2) (fun _ => [⟨0, 0, 10, 10⟩]) (fun _ => [⟨1, 1, 2, 2⟩])
        (fun _ => [4]) ⟨0, 0, 0, 0, 0, 0, 0, 0, 0, 0, 0, 0, []⟩
        ⟨[⟨0, 0, 10, 10⟩, ⟨1, 1, 2, 2⟩], [0, 5], 0⟩ =
      some ⟨1, 0, 0, 1, 0, 0, 1, 0, 0, 1, 0, 0, [(4, 4)]⟩ ∧
    (EvalState.mk 1 0 0 1 0 0 1 0 0 1 0 0 [(4, 4)]).buffer.take
        (EvalState.mk 0 0 0 0 0 0 0 0 0 0 0 0 []).buffer.length =
      (EvalState.mk 0 0 0 0 0 0 0 0 0 0 0 0 []).buffer := by
  have hrun : processImage (1 / 2) (fun _ => [⟨0, 0, 10, 10⟩]) (fun _ => [⟨1, 1, 2, 2⟩])
      (fun _ => [4]) ⟨0, 0, 0, 0, 0, 0, 0, 0, 0, 0, 0, 0, []⟩
      ⟨[⟨0, 0, 10, 10⟩, ⟨1, 1, 2, 2⟩], [0, 5], 0⟩ =
      some ⟨1, 0, 0, 1, 0, 0, 1, 0, 0, 1, 0, 0, [(4, 4)]⟩ := by
    norm_num [processImage, splitEntities, match_boxes, matchBoxesRun, matchBoxesStep,
      bestMatch, bestMatchAux, match_classification, matchClassGo, bestMatchPairs,
      match_classification_detected_only, collectGo, bbox_iou, union_area, inter_area,
      box_area, min_def, max_def]
  have H := processImage_conditioning (1 / 2) (fun _ => [⟨0, 0, 10, 10⟩])
    (fun _ => [⟨1, 1, 2, 2⟩]) (fun _ => [4]) ⟨0, 0, 0, 0, 0, 0, 0, 0, 0, 0, 0, 0, []⟩
    ⟨[⟨0, 0, 10, 10⟩, ⟨1, 1, 2, 2⟩], [0, 5], 0⟩
    ⟨1, 0, 0, 1, 0, 0, 1, 0, 0, 1, 0, 0, [(4, 4)]⟩ hrun
  refine ⟨hrun, ?_⟩
  refine (H.2.2.1 ?_).2.2
  norm_num [splitEntities, match_boxes, matchBoxesRun, matchBoxesStep, bestMatch,
    bestMatchAux, bbox_iou, union_area, inter_area, box_area, min_def, max_def]

end LicensePlateEval
